import Mathlib

/-!
Shallow embedding of the QueueCTL storage layer (`queuectl/storage.py`).

The `jobs` table is a list of `Job` rows; each SQL statement of
`storage.py` becomes a pure function on that list.  ISO-8601 UTC
timestamps compare like their values, so instants are modelled as `Nat`
(`now` is taken as an explicit argument of every operation, standing for
the `datetime.utcnow()` reading inside the call; the embedding treats a
transaction as instantaneous, so the two clock reads inside `fail_job`
are the same value).  SQL `NULL`-able columns become `Option`; the REAL
column `execution_time` only ever flows through the storage layer
unchanged, so its values are modelled as `Int` for decidability.
-/

namespace QueueCTL

/-- The five job states of the `state` column. -/
inductive JobState where
  | pending
  | processing
  | completed
  | failed
  | dead
deriving DecidableEq

/-- One row of the `jobs` table (columns of `schema.sql` as used by
`storage.py`, including the migrated `waiting_time` and `execution_time`
columns). -/
structure Job where
  id : String
  command : String
  state : JobState
  attempts : Nat
  max_retries : Nat
  timeout : Nat
  backoff_base : Nat
  priority : Int
  waiting_time : Nat
  next_retry_at : Option Nat
  locked_by : Option String
  locked_at : Option Nat
  output : Option String
  error_message : Option String
  execution_time : Option Int
  created_at : Nat
  updated_at : Nat
deriving DecidableEq

/-- The persistent store: the `jobs` table.  (The `config` table only
feeds the default values of `enqueue_job`'s optional fields; the
operations below take the already-resolved field values, as the claims
never depend on the default lookup.) -/
structure Store where
  jobs : List Job
deriving DecidableEq

/-- `UPDATE jobs SET ... WHERE p`: rewrite every row satisfying `p` by `f`. -/
def updRows (p : Job → Bool) (f : Job → Job) (l : List Job) : List Job :=
  l.map fun x => if p x then f x else x

/-- SQL condition `next_retry_at <= now` (false on `NULL`). -/
def retryDue (j : Job) (now : Nat) : Bool :=
  match j.next_retry_at with
  | some t => decide (t ≤ now)
  | none => false

/-- The `WHERE` clause of `acquire_job`'s selection query:
`(state = 'pending' OR (state = 'failed' AND next_retry_at <= now)) AND locked_by IS NULL`. -/
def eligibleB (now : Nat) (j : Job) : Bool :=
  (decide (j.state = JobState.pending) ||
    (decide (j.state = JobState.failed) && retryDue j now)) &&
  decide (j.locked_by = none)

/-- The ranking key `priority + waiting_time` of the `ORDER BY` clause. -/
def effPrio (j : Job) : Int :=
  j.priority + (j.waiting_time : Int)

/-- `a` sorts strictly before `b` under
`ORDER BY (priority + waiting_time) DESC, created_at ASC`. -/
def better (a b : Job) : Prop :=
  effPrio b < effPrio a ∨ (effPrio a = effPrio b ∧ a.created_at < b.created_at)

instance (a b : Job) : Decidable (better a b) := by
  unfold better; infer_instance

/-- `ORDER BY ... LIMIT 1`: the first row of the list in the sort order
(on a full tie the earlier row of the table wins, matching SQLite's
stable scan order; no claim depends on full ties). -/
def selectBest : List Job → Option Job
  | [] => none
  | a :: t =>
    match selectBest t with
    | none => some a
    | some b => if better b a then some b else some a

/-- The row inserted by `enqueue_job`'s `INSERT`: columns not in the
column list are `NULL`. -/
def freshJob (id command : String) (max_retries timeout backoff_base : Nat)
    (priority : Int) (now : Nat) : Job :=
  { id := id
    command := command
    state := JobState.pending
    attempts := 0
    max_retries := max_retries
    timeout := timeout
    backoff_base := backoff_base
    priority := priority
    waiting_time := 0
    next_retry_at := none
    locked_by := none
    locked_at := none
    output := none
    error_message := none
    execution_time := none
    created_at := now
    updated_at := now }

/-- The aging bump of `enqueue_job`:
`UPDATE jobs SET waiting_time = waiting_time + 1 WHERE state IN ('pending','failed') AND locked_by IS NULL`. -/
def bumpRows (l : List Job) : List Job :=
  updRows
    (fun x => (decide (x.state = JobState.pending) || decide (x.state = JobState.failed)) &&
      decide (x.locked_by = none))
    (fun x => { x with waiting_time := x.waiting_time + 1 })
    l

/-- `Storage.enqueue_job`.  Modelled from the spec for the duplicate-id
case: the `jobs` table schema (`schema.sql`) is not among the sources,
but the spec declares `id` the primary key, so the `INSERT` raises on an
existing id, `enqueue_job` returns `False`, and the open transaction —
including the aging bump executed before the `INSERT` — is rolled back
when the connection closes without a commit. -/
def enqueue_job (s : Store) (id command : String)
    (max_retries timeout backoff_base : Nat) (priority : Int) (now : Nat) :
    Bool × Store :=
  if s.jobs.any fun x => decide (x.id = id) then
    (false, s)
  else
    (true, ⟨bumpRows s.jobs ++ [freshJob id command max_retries timeout backoff_base priority now]⟩)

/-- The row update of `acquire_job`'s `UPDATE ... WHERE id = ? AND locked_by IS NULL`. -/
def acquireRow (worker_id : String) (now : Nat) (x : Job) : Job :=
  { x with state := JobState.processing
           locked_by := some worker_id
           locked_at := some now
           updated_at := now }

/-- `Storage.acquire_job`: select the best eligible row, lock it with the
conditional `UPDATE ... WHERE id = ? AND locked_by IS NULL`, commit,
check `rowcount`, and re-fetch the row by id. -/
def acquire_job (s : Store) (worker_id : String) (now : Nat) :
    Option Job × Store :=
  match selectBest (s.jobs.filter (eligibleB now)) with
  | none => (none, s)
  | some sel =>
    let jobs2 := updRows
      (fun x => decide (x.id = sel.id) && decide (x.locked_by = none))
      (acquireRow worker_id now) s.jobs
    if (s.jobs.filter fun x => decide (x.id = sel.id) && decide (x.locked_by = none)).length = 0 then
      (none, ⟨jobs2⟩)
    else
      (jobs2.find? fun x => decide (x.id = sel.id), ⟨jobs2⟩)

/-- The row update of `complete_job`. -/
def completeRow (output : String) (execution_time : Option Int) (now : Nat)
    (x : Job) : Job :=
  { x with state := JobState.completed
           output := some output
           execution_time := execution_time
           locked_by := none
           locked_at := none
           updated_at := now }

/-- `Storage.complete_job`: unconditional `UPDATE ... WHERE id = ?`. -/
def complete_job (s : Store) (job_id : String) (output : String)
    (execution_time : Option Int) (now : Nat) : Store :=
  ⟨updRows (fun x => decide (x.id = job_id)) (completeRow output execution_time now) s.jobs⟩

/-- `Storage.get_job`: `SELECT * FROM jobs WHERE id = ?` (first row). -/
def get_job (s : Store) (job_id : String) : Option Job :=
  s.jobs.find? fun x => decide (x.id = job_id)

/-- The DLQ row update of `fail_job` (`attempts >= max_retries` branch). -/
def deadRow (attempts : Nat) (msg : String) (t : Option Int) (now : Nat)
    (x : Job) : Job :=
  { x with state := JobState.dead
           attempts := attempts
           error_message := some msg
           execution_time := t
           locked_by := none
           locked_at := none
           next_retry_at := none
           updated_at := now }

/-- The retry row update of `fail_job` (else branch). -/
def failedRow (attempts : Nat) (msg : String) (t : Option Int)
    (next_retry now : Nat) (x : Job) : Job :=
  { x with state := JobState.failed
           attempts := attempts
           error_message := some msg
           execution_time := t
           locked_by := none
           locked_at := none
           next_retry_at := some next_retry
           updated_at := now }

/-- `Storage.fail_job`: read the row; if absent, no-op; else increment
`attempts`, route to DLQ when `attempts >= max_retries`, otherwise
schedule a retry after `backoff_base ** attempts` seconds.  (The source
reads `datetime.utcnow()` once for `updated_at` and once as the base of
`next_retry_at`; the instantaneous-transaction model uses the single
clock value `now` for both.) -/
def fail_job (s : Store) (job_id : String) (error_message : String)
    (execution_time : Option Int) (now : Nat) : Store :=
  match get_job s job_id with
  | none => s
  | some job =>
    let attempts := job.attempts + 1
    if job.max_retries ≤ attempts then
      ⟨updRows (fun x => decide (x.id = job_id))
        (deadRow attempts error_message execution_time now) s.jobs⟩
    else
      let delay := job.backoff_base ^ attempts
      ⟨updRows (fun x => decide (x.id = job_id))
        (failedRow attempts error_message execution_time (now + delay) now) s.jobs⟩

/-- The row update of `retry_dlq_job`. -/
def dlqRow (now : Nat) (x : Job) : Job :=
  { x with state := JobState.pending
           attempts := 0
           error_message := none
           next_retry_at := none
           locked_by := none
           locked_at := none
           updated_at := now }

/-- `Storage.retry_dlq_job`: succeed only when the row exists and is
`dead`; otherwise return `False` without mutating anything. -/
def retry_dlq_job (s : Store) (job_id : String) (now : Nat) : Bool × Store :=
  match get_job s job_id with
  | none => (false, s)
  | some job =>
    if job.state = JobState.dead then
      (true, ⟨updRows (fun x => decide (x.id = job_id)) (dlqRow now) s.jobs⟩)
    else
      (false, s)

/-- `Storage.delete_job`: `DELETE FROM jobs WHERE id = ?`; returns
`rowcount > 0`. -/
def delete_job (s : Store) (job_id : String) : Bool × Store :=
  (s.jobs.any fun x => decide (x.id = job_id),
   ⟨s.jobs.filter fun x => !(decide (x.id = job_id))⟩)

/-- `Storage.clear_all_jobs`: `DELETE FROM jobs`. -/
def clear_all_jobs (_ : Store) : Store := ⟨[]⟩

/-- Primary-key uniqueness of the `id` column (schema invariant). -/
def UniqueIds (s : Store) : Prop :=
  (s.jobs.map Job.id).Nodup

instance (s : Store) : Decidable (UniqueIds s) := by
  unfold UniqueIds; infer_instance

/-- One storage-layer call, with its clock reading. -/
inductive Op where
  | enqueue (id command : String) (max_retries timeout backoff_base : Nat)
      (priority : Int) (now : Nat)
  | acquire (worker_id : String) (now : Nat)
  | complete (job_id output : String) (t : Option Int) (now : Nat)
  | fail (job_id msg : String) (t : Option Int) (now : Nat)
  | dlqRetry (job_id : String) (now : Nat)
  | delete (job_id : String)
  | clear

/-- Apply one storage call to the store. -/
def applyOp (s : Store) : Op → Store
  | Op.enqueue id c mr tmo bb p now => (enqueue_job s id c mr tmo bb p now).2
  | Op.acquire w now => (acquire_job s w now).2
  | Op.complete j o t now => complete_job s j o t now
  | Op.fail j m t now => fail_job s j m t now
  | Op.dlqRetry j now => (retry_dlq_job s j now).2
  | Op.delete j => (delete_job s j).2
  | Op.clear => clear_all_jobs s

/-- Run a sequence of storage calls. -/
def runOps (s : Store) (ops : List Op) : Store :=
  ops.foldl applyOp s

/-- The empty store. -/
def store0 : Store := ⟨[]⟩

/-! ### Basic row-update lemmas -/

theorem acquireRow_id (w : String) (now : Nat) (x : Job) :
    (acquireRow w now x).id = x.id := rfl

theorem completeRow_id (o : String) (t : Option Int) (now : Nat) (x : Job) :
    (completeRow o t now x).id = x.id := rfl

theorem deadRow_id (a : Nat) (m : String) (t : Option Int) (now : Nat) (x : Job) :
    (deadRow a m t now x).id = x.id := rfl

theorem failedRow_id (a : Nat) (m : String) (t : Option Int) (nr now : Nat) (x : Job) :
    (failedRow a m t nr now x).id = x.id := rfl

theorem dlqRow_id (now : Nat) (x : Job) : (dlqRow now x).id = x.id := rfl

theorem updRows_length (p : Job → Bool) (f : Job → Job) (l : List Job) :
    (updRows p f l).length = l.length := by
  unfold updRows; exact List.length_map l _

theorem updRows_map_id (p : Job → Bool) (f : Job → Job)
    (hf : ∀ x, (f x).id = x.id) (l : List Job) :
    (updRows p f l).map Job.id = l.map Job.id := by
  unfold updRows
  rw [List.map_map]
  have hcomp : (Job.id ∘ fun x => if p x then f x else x) = Job.id := by
    funext x
    by_cases hp : p x <;> simp [hp, hf]
  rw [hcomp]

theorem find_map_of_id (g : Job → Job) (hg : ∀ x, (g x).id = x.id)
    (l : List Job) (i : String) :
    ((l.map g).find? fun x => decide (x.id = i)) =
      (l.find? fun x => decide (x.id = i)).map g := by
  induction l with
  | nil => rfl
  | cons a t ih =>
    by_cases h : a.id = i
    · rw [List.map_cons, List.find?_cons_of_pos, List.find?_cons_of_pos]
      · rfl
      · simpa using h
      · simpa [hg] using h
    · rw [List.map_cons, List.find?_cons_of_neg, List.find?_cons_of_neg, ih]
      · simpa using h
      · simpa [hg] using h

theorem find_updRows (p : Job → Bool) (f : Job → Job)
    (hf : ∀ x, (f x).id = x.id) (l : List Job) (i : String) :
    ((updRows p f l).find? fun x => decide (x.id = i)) =
      (l.find? fun x => decide (x.id = i)).map fun x => if p x then f x else x := by
  unfold updRows
  refine find_map_of_id _ ?_ l i
  intro x
  by_cases hp : p x <;> simp [hp, hf]

theorem find_eq_self_of_unique (l : List Job) (hu : (l.map Job.id).Nodup)
    (x : Job) (hx : x ∈ l) :
    (l.find? fun y => decide (y.id = x.id)) = some x := by
  induction l with
  | nil => simp at hx
  | cons a t ih =>
    rw [List.map_cons, List.nodup_cons] at hu
    rcases List.mem_cons.mp hx with rfl | hxt
    · rw [List.find?_cons_of_pos]
      simp
    · have hne : a.id ≠ x.id := by
        intro he
        exact hu.1 (he ▸ List.mem_map_of_mem Job.id hxt)
      rw [List.find?_cons_of_neg]
      · exact ih hu.2 hxt
      · simpa using hne
    -- done

theorem mem_id_unique (l : List Job) (hu : (l.map Job.id).Nodup)
    {x y : Job} (hx : x ∈ l) (hy : y ∈ l) (h : x.id = y.id) : x = y := by
  have h1 := find_eq_self_of_unique l hu x hx
  have h2 := find_eq_self_of_unique l hu y hy
  rw [h] at h1
  rw [h1] at h2
  exact Option.some.injEq x y ▸ h2 ▸ rfl

/-! ### The `ORDER BY ... LIMIT 1` selection -/

theorem better_irrefl (a : Job) : ¬ better a a := by
  unfold better; omega

theorem better_asymm {a b : Job} (h : better a b) : ¬ better b a := by
  unfold better at *; omega

theorem not_better_trans {a b c : Job} (h1 : ¬ better a b) (h2 : ¬ better b c) :
    ¬ better a c := by
  unfold better at *; omega

theorem not_better_iff {a b : Job} :
    ¬ better a b ↔
      effPrio a < effPrio b ∨ (effPrio a = effPrio b ∧ b.created_at ≤ a.created_at) := by
  unfold better; omega

theorem selectBest_ne_none (a : Job) (t : List Job) : selectBest (a :: t) ≠ none := by
  unfold selectBest
  cases selectBest t with
  | none => simp
  | some b => by_cases h : better b a <;> simp [h]

theorem selectBest_spec (l : List Job) (j : Job) (h : selectBest l = some j) :
    j ∈ l ∧ ∀ y ∈ l, ¬ better y j := by
  induction l generalizing j with
  | nil => simp [selectBest] at h
  | cons a t ih =>
    unfold selectBest at h
    cases hb : selectBest t with
    | none =>
      rw [hb] at h
      cases h
      cases t with
      | nil =>
        refine ⟨List.mem_cons_self _ _, ?_⟩
        intro y hy
        rcases List.mem_cons.mp hy with rfl | hyt
        · exact better_irrefl _
        · simp at hyt
      | cons b u => exact absurd hb (selectBest_ne_none b u)
    | some b =>
      rw [hb] at h
      dsimp only at h
      obtain ⟨hbmem, hbbest⟩ := ih b hb
      by_cases hba : better b a
      · rw [if_pos hba] at h
        cases h
        refine ⟨List.mem_cons_of_mem _ hbmem, ?_⟩
        intro y hy
        rcases List.mem_cons.mp hy with rfl | hyt
        · exact better_asymm hba
        · exact hbbest y hyt
      · rw [if_neg hba] at h
        cases h
        refine ⟨List.mem_cons_self _ _, ?_⟩
        intro y hy
        rcases List.mem_cons.mp hy with rfl | hyt
        · exact better_irrefl _
        · exact not_better_trans (hbbest y hyt) hba

/-! ### Eligibility -/

theorem eligibleB_iff (now : Nat) (j : Job) :
    eligibleB now j = true ↔
      (j.state = JobState.pending ∨
        (j.state = JobState.failed ∧ retryDue j now = true)) ∧
      j.locked_by = none := by
  unfold eligibleB
  simp [Bool.and_eq_true, Bool.or_eq_true]

/-! ### Characterisation of a successful acquire -/

theorem acquire_some_spec (s : Store) (w : String) (now : Nat) (j : Job)
    (s' : Store) (hu : UniqueIds s) (h : acquire_job s w now = (some j, s')) :
    ∃ sel, sel ∈ s.jobs ∧ eligibleB now sel = true ∧
      (∀ y ∈ s.jobs, eligibleB now y = true → ¬ better y sel) ∧
      j = acquireRow w now sel ∧
      s' = ⟨updRows (fun x => decide (x.id = sel.id) && decide (x.locked_by = none))
              (acquireRow w now) s.jobs⟩ := by
  unfold acquire_job at h
  cases hsel : selectBest (s.jobs.filter (eligibleB now)) with
  | none => rw [hsel] at h; simp at h
  | some sel =>
    rw [hsel] at h
    dsimp only at h
    obtain ⟨hmem, hbest⟩ := selectBest_spec _ _ hsel
    rw [List.mem_filter] at hmem
    obtain ⟨hsel_mem, hsel_elig⟩ := hmem
    have hlock : sel.locked_by = none := ((eligibleB_iff now sel).mp hsel_elig).2
    have hself : sel ∈ s.jobs.filter
        fun x => decide (x.id = sel.id) && decide (x.locked_by = none) := by
      rw [List.mem_filter]
      exact ⟨hsel_mem, by simp [hlock]⟩
    have hcnt : ¬ (s.jobs.filter
        fun x => decide (x.id = sel.id) && decide (x.locked_by = none)).length = 0 := by
      intro h0
      rw [List.length_eq_zero] at h0
      rw [h0] at hself
      simp at hself
    rw [if_neg hcnt] at h
    have hfind : ((updRows
        (fun x => decide (x.id = sel.id) && decide (x.locked_by = none))
        (acquireRow w now) s.jobs).find? fun x => decide (x.id = sel.id)) =
        some (acquireRow w now sel) := by
      rw [find_updRows (fun x => decide (x.id = sel.id) && decide (x.locked_by = none))
          (acquireRow w now) (fun x => rfl) s.jobs sel.id,
        find_eq_self_of_unique s.jobs hu sel hsel_mem]
      simp [hlock]
    rw [hfind] at h
    obtain ⟨hj, hs⟩ := Prod.mk.injEq _ _ _ _ ▸ h
    exact ⟨sel, hsel_mem, hsel_elig,
      fun y hy he => hbest y (List.mem_filter.mpr ⟨hy, he⟩),
      (Option.some.injEq _ _ ▸ hj).symm, hs.symm⟩

theorem acquire_none_frame (s : Store) (w : String) (now : Nat) (s' : Store)
    (h : acquire_job s w now = (none, s')) : s' = s := by
  unfold acquire_job at h
  cases hsel : selectBest (s.jobs.filter (eligibleB now)) with
  | none =>
    rw [hsel] at h
    exact (Prod.mk.injEq _ _ _ _ ▸ h).2.symm
  | some sel =>
    rw [hsel] at h
    dsimp only at h
    obtain ⟨hmem, _⟩ := selectBest_spec _ _ hsel
    rw [List.mem_filter] at hmem
    obtain ⟨hsel_mem, hsel_elig⟩ := hmem
    have hlock : sel.locked_by = none := ((eligibleB_iff now sel).mp hsel_elig).2
    have hself : sel ∈ s.jobs.filter
        fun x => decide (x.id = sel.id) && decide (x.locked_by = none) := by
      rw [List.mem_filter]
      exact ⟨hsel_mem, by simp [hlock]⟩
    have hcnt : ¬ (s.jobs.filter
        fun x => decide (x.id = sel.id) && decide (x.locked_by = none)).length = 0 := by
      intro h0
      rw [List.length_eq_zero] at h0
      rw [h0] at hself
      simp at hself
    rw [if_neg hcnt] at h
    have hfind := (Prod.mk.injEq _ _ _ _ ▸ h).1
    rw [List.find?_eq_none] at hfind
    have hmem2 : acquireRow w now sel ∈ updRows
        (fun x => decide (x.id = sel.id) && decide (x.locked_by = none))
        (acquireRow w now) s.jobs := by
      unfold updRows
      exact List.mem_map.mpr ⟨sel, hsel_mem, by rw [if_pos (by simp [hlock])]⟩
    exact absurd (by simp [acquireRow] : decide ((acquireRow w now sel).id = sel.id) = true)
      (hfind _ hmem2)

theorem updRows_uniqueIds {s : Store} (hu : UniqueIds s) (p : Job → Bool)
    (f : Job → Job) (hf : ∀ x, (f x).id = x.id) :
    UniqueIds ⟨updRows p f s.jobs⟩ := by
  unfold UniqueIds at *
  rw [updRows_map_id p f hf]
  exact hu

/-- C1: a returned job was unlocked before the call, is returned locked by
the caller in state `processing`, and a subsequent acquire on the
resulting store can never return the same job. -/
theorem acquire_locks_and_excludes (s : Store) (w : String) (now : Nat)
    (j : Job) (s' : Store) (hu : UniqueIds s)
    (h : acquire_job s w now = (some j, s')) :
    (∃ x ∈ s.jobs, x.id = j.id ∧ x.locked_by = none) ∧
    j.state = JobState.processing ∧ j.locked_by = some w ∧
    j.locked_at = some now ∧ j.updated_at = now ∧
    ∀ w2 now2 j2 s2, acquire_job s' w2 now2 = (some j2, s2) → j2.id ≠ j.id := by
  obtain ⟨sel, hmem, helig, _, hj, hs⟩ := acquire_some_spec s w now j s' hu h
  have hlock : sel.locked_by = none := ((eligibleB_iff now sel).mp helig).2
  have hjid : j.id = sel.id := by rw [hj]; rfl
  refine ⟨⟨sel, hmem, hjid.symm, hlock⟩, by rw [hj]; rfl, by rw [hj]; rfl,
    by rw [hj]; rfl, by rw [hj]; rfl, ?_⟩
  intro w2 now2 j2 s2 h2 hid
  have hu' : UniqueIds s' := by
    rw [hs]
    exact updRows_uniqueIds hu _ _ (fun x => rfl)
  obtain ⟨sel2, hmem2, helig2, _, hj2, _⟩ := acquire_some_spec s' w2 now2 j2 s2 hu' h2
  have hlock2 : sel2.locked_by = none := ((eligibleB_iff now2 sel2).mp helig2).2
  have hid2 : sel2.id = sel.id := by
    have : j2.id = sel2.id := by rw [hj2]; rfl
    rw [← this, hid, hjid]
  rw [hs] at hmem2
  unfold updRows at hmem2
  obtain ⟨x, hxmem, hx⟩ := List.mem_map.mp hmem2
  have hxid : x.id = sel.id := by
    by_cases hp : (decide (x.id = sel.id) && decide (x.locked_by = none)) = true
    · exact of_decide_eq_true (Bool.and_eq_true _ _ ▸ hp).1
    · rw [if_neg hp] at hx
      rw [← hx] at hid2
      exact hid2
  have hxsel : x = sel := mem_id_unique s.jobs hu hxmem hmem hxid
  rw [hxsel] at hx
  rw [if_pos (by simp [hlock])] at hx
  rw [← hx] at hlock2
  exact absurd hlock2 (by unfold acquireRow; simp)

/-- C2: the job locked by a successful acquire is an eligible one (hence
`pending` or due-`failed`, never `processing`, `completed` or `dead`)
with maximal `priority + waiting_time`, ties broken by least
`created_at`; rows in `processing`, `completed` or `dead` survive the
call unchanged, and a fruitless acquire leaves the store untouched. -/
theorem acquire_ordering (s : Store) (w : String) (now : Nat)
    (hu : UniqueIds s) :
    (∀ j s', acquire_job s w now = (some j, s') →
      ∃ sel ∈ s.jobs, sel.id = j.id ∧ eligibleB now sel = true ∧
        (sel.state = JobState.pending ∨ sel.state = JobState.failed) ∧
        (∀ y ∈ s.jobs, eligibleB now y = true →
          effPrio y ≤ effPrio sel ∧
          (effPrio y = effPrio sel → sel.created_at ≤ y.created_at)) ∧
        s'.jobs.length = s.jobs.length ∧
        (∀ y ∈ s.jobs,
          y.state = JobState.processing ∨ y.state = JobState.completed ∨
            y.state = JobState.dead → y ∈ s'.jobs)) ∧
    (∀ s', acquire_job s w now = (none, s') → s' = s) := by
  constructor
  · intro j s' h
    obtain ⟨sel, hmem, helig, hbest, hj, hs⟩ := acquire_some_spec s w now j s' hu h
    have helig' := (eligibleB_iff now sel).mp helig
    refine ⟨sel, hmem, by rw [hj]; rfl, helig, ?_, ?_, ?_, ?_⟩
    · rcases helig'.1 with hp | hf
      · exact Or.inl hp
      · exact Or.inr hf.1
    · intro y hy he
      have := not_better_iff.mp (hbest y hy he)
      omega
    · rw [hs]
      exact updRows_length _ _ _
    · intro y hy hstate
      rw [hs]
      unfold updRows
      have hstate_sel : sel.state = JobState.pending ∨ sel.state = JobState.failed := by
        rcases helig'.1 with h1 | h1
        · exact Or.inl h1
        · exact Or.inr h1.1
      have hp : (decide (y.id = sel.id) && decide (y.locked_by = none)) = true →
          False := by
        intro hp
        have hyid : y.id = sel.id := of_decide_eq_true (Bool.and_eq_true _ _ ▸ hp).1
        have hysel : y = sel := mem_id_unique s.jobs hu hy hmem hyid
        rw [hysel] at hstate
        rcases hstate with h2 | h2 | h2 <;> rcases hstate_sel with h1 | h1 <;>
          simp [h1] at h2
      refine List.mem_map.mpr ⟨y, hy, ?_⟩
      rw [if_neg fun hc => hp hc]
  · intro s' h
    exact acquire_none_frame s w now s' h

/-! ### Row-lookup helpers for the single-row updates -/

theorem get_job_some_id {s : Store} {i : String} {job : Job}
    (h : get_job s i = some job) : job.id = i := by
  unfold get_job at h
  have hp := List.find?_some h
  simpa using hp

theorem get_job_mem {s : Store} {i : String} {job : Job}
    (h : get_job s i = some job) : job ∈ s.jobs :=
  List.mem_of_find?_eq_some h

theorem get_job_upd_same (s : Store) (i : String) (f : Job → Job)
    (hf : ∀ x, (f x).id = x.id) (job : Job) (h : get_job s i = some job) :
    get_job ⟨updRows (fun x => decide (x.id = i)) f s.jobs⟩ i = some (f job) := by
  have hid : job.id = i := get_job_some_id h
  unfold get_job at *
  rw [find_updRows _ f hf s.jobs i, h]
  simp [hid]

theorem map_id_of_fix (l : List Job) (g : Job → Job) (h : ∀ x ∈ l, g x = x) :
    l.map g = l := by
  induction l with
  | nil => rfl
  | cons a t ih =>
    rw [List.map_cons, h a (List.mem_cons_self a t),
      ih fun x hx => h x (List.mem_cons_of_mem a hx)]

theorem updRows_absent (s : Store) (i : String) (f : Job → Job)
    (h : get_job s i = none) :
    updRows (fun x => decide (x.id = i)) f s.jobs = s.jobs := by
  unfold get_job at h
  rw [List.find?_eq_none] at h
  unfold updRows
  refine map_id_of_fix _ _ fun x hx => ?_
  rw [if_neg (h x hx)]

/-- C3: `fail` increments `attempts`; at `attempts + 1 ≥ max_retries` the
job becomes `dead` with the error and timing recorded and the retry/lock
fields cleared, otherwise it becomes `failed` with a retry scheduled and
the lock cleared; a job only becomes `dead` with `attempts` at least
`max_retries`, and — starting below the ceiling — with exactly
`max_retries` accumulated attempts, never fewer. -/
theorem fail_transitions (s : Store) (i msg : String) (t : Option Int)
    (now : Nat) (job : Job) (hf : get_job s i = some job) :
    ∃ job2, get_job (fail_job s i msg t now) i = some job2 ∧
      job2.attempts = job.attempts + 1 ∧
      job2.max_retries = job.max_retries ∧
      (job.max_retries ≤ job.attempts + 1 →
        job2.state = JobState.dead ∧ job2.error_message = some msg ∧
        job2.execution_time = t ∧ job2.next_retry_at = none ∧
        job2.locked_by = none ∧ job2.locked_at = none) ∧
      (job.attempts + 1 < job.max_retries →
        job2.state = JobState.failed ∧
        job2.next_retry_at = some (now + job.backoff_base ^ (job.attempts + 1)) ∧
        job2.error_message = some msg ∧
        job2.locked_by = none ∧ job2.locked_at = none) ∧
      (job2.state = JobState.dead → job.max_retries ≤ job2.attempts) ∧
      (job.attempts < job.max_retries → job2.state = JobState.dead →
        job2.attempts = job2.max_retries) := by
  unfold fail_job
  rw [hf]
  dsimp only
  by_cases hc : job.max_retries ≤ job.attempts + 1
  · rw [if_pos hc]
    refine ⟨deadRow (job.attempts + 1) msg t now job,
      get_job_upd_same s i (deadRow (job.attempts + 1) msg t now)
        (fun x => rfl) job hf, rfl, rfl,
      fun _ => ⟨rfl, rfl, rfl, rfl, rfl, rfl⟩, fun hlt => absurd hc (by omega),
      fun _ => ?_, fun hlt _ => ?_⟩
    · show job.max_retries ≤ job.attempts + 1
      exact hc
    · show job.attempts + 1 = job.max_retries
      omega
  · rw [if_neg hc]
    refine ⟨failedRow (job.attempts + 1) msg t
        (now + job.backoff_base ^ (job.attempts + 1)) now job,
      get_job_upd_same s i (failedRow (job.attempts + 1) msg t
        (now + job.backoff_base ^ (job.attempts + 1)) now)
        (fun x => rfl) job hf, rfl, rfl,
      fun hge => absurd hge hc, fun _ => ⟨rfl, rfl, rfl, rfl, rfl⟩,
      fun hd => ?_, fun _ hd => ?_⟩
    · exact absurd hd (by unfold failedRow; simp)
    · exact absurd hd (by unfold failedRow; simp)

/-- C4: when the `k`-th failure with `1 ≤ k < max_retries` is recorded
(`k` the post-increment `attempts`), the resulting row has
`next_retry_at = updated_at + backoff_base ^ k` and `updated_at = now`. -/
theorem fail_backoff (s : Store) (i msg : String) (t : Option Int)
    (now : Nat) (job : Job) (hf : get_job s i = some job)
    (hk : job.attempts + 1 < job.max_retries) :
    ∃ job2, get_job (fail_job s i msg t now) i = some job2 ∧
      1 ≤ job2.attempts ∧ job2.attempts < job2.max_retries ∧
      job2.attempts = job.attempts + 1 ∧
      job2.updated_at = now ∧
      job2.next_retry_at =
        some (job2.updated_at + job.backoff_base ^ job2.attempts) := by
  unfold fail_job
  rw [hf]
  dsimp only
  rw [if_neg (by omega)]
  exact ⟨failedRow (job.attempts + 1) msg t
      (now + job.backoff_base ^ (job.attempts + 1)) now job,
    get_job_upd_same s i (failedRow (job.attempts + 1) msg t
      (now + job.backoff_base ^ (job.attempts + 1)) now) (fun x => rfl) job hf,
    by show 1 ≤ job.attempts + 1; omega,
    by show job.attempts + 1 < job.max_retries; omega, rfl, rfl, rfl⟩

/-- C9: repeating `complete_job` with the same arguments (the clock
reading included) is idempotent on the store. -/
theorem complete_idempotent (s : Store) (i out : String) (t : Option Int)
    (now : Nat) :
    complete_job (complete_job s i out t now) i out t now =
      complete_job s i out t now := by
  unfold complete_job updRows
  congr 1
  rw [List.map_map]
  have hg : ((fun x => if decide (x.id = i) then completeRow out t now x else x) ∘
      fun x => if decide (x.id = i) then completeRow out t now x else x) =
      fun x => if decide (x.id = i) then completeRow out t now x else x := by
    funext x
    simp only [Function.comp_apply]
    by_cases h : x.id = i
    · have hpos : decide (x.id = i) = true := by simpa using h
      rw [if_pos hpos,
        if_pos (show decide ((completeRow out t now x).id = i) = true by
          simpa [completeRow] using h)]
      unfold completeRow
      rfl
    · have hneg : ¬ decide (x.id = i) = true := by simpa using h
      rw [if_neg hneg, if_neg hneg]
  rw [hg]

/-- C10: `complete_job` and `fail_job` look only at the job id — neither
the current state nor the lock owner is checked: any existing row is
completed resp. run through the retry transition, and only a missing id
makes either call a no-op. -/
theorem complete_fail_unconditional :
    (∀ s i out t now job, get_job s i = some job →
      ∃ job2, get_job (complete_job s i out t now) i = some job2 ∧
        job2.state = JobState.completed ∧ job2.output = some out ∧
        job2.execution_time = t ∧ job2.locked_by = none ∧
        job2.locked_at = none ∧ job2.updated_at = now) ∧
    (∀ s i out t now, get_job s i = none → complete_job s i out t now = s) ∧
    (∀ s i msg t now job, get_job s i = some job →
      ∃ job2, get_job (fail_job s i msg t now) i = some job2 ∧
        job2.attempts = job.attempts + 1 ∧
        (job2.state = JobState.dead ∨ job2.state = JobState.failed)) ∧
    (∀ s i msg t now, get_job s i = none → fail_job s i msg t now = s) := by
  refine ⟨?_, ?_, ?_, ?_⟩
  · intro s i out t now job hf
    exact ⟨completeRow out t now job,
      get_job_upd_same s i (completeRow out t now) (fun x => rfl) job hf,
      rfl, rfl, rfl, rfl, rfl, rfl⟩
  · intro s i out t now h
    unfold complete_job
    rw [updRows_absent s i _ h]
  · intro s i msg t now job hf
    obtain ⟨job2, hg, ha, _, hdead, hfailed, _⟩ :=
      fail_transitions s i msg t now job hf
    refine ⟨job2, hg, ha, ?_⟩
    by_cases hc : job.max_retries ≤ job.attempts + 1
    · exact Or.inl (hdead hc).1
    · exact Or.inr (hfailed (by omega)).1
  · intro s i msg t now h
    unfold fail_job
    rw [h]

/-- C5 (amended): `retry_dlq_job` on a `dead` job succeeds and resets
`state`, `attempts`, `error_message`, `next_retry_at` and the lock
fields, refreshing `updated_at`; it retains `waiting_time`, `output` and
`execution_time` (so the result is not a fully fresh job); on a
non-`dead` or absent id it returns `false` and mutates nothing. -/
theorem dlq_retry_resets (s : Store) :
    (∀ i now job, get_job s i = some job → job.state = JobState.dead →
      (retry_dlq_job s i now).1 = true ∧
      get_job (retry_dlq_job s i now).2 i = some (dlqRow now job) ∧
      (dlqRow now job).state = JobState.pending ∧
      (dlqRow now job).attempts = 0 ∧
      (dlqRow now job).error_message = none ∧
      (dlqRow now job).next_retry_at = none ∧
      (dlqRow now job).locked_by = none ∧
      (dlqRow now job).locked_at = none ∧
      (dlqRow now job).updated_at = now ∧
      (dlqRow now job).id = job.id ∧
      (dlqRow now job).command = job.command ∧
      (dlqRow now job).max_retries = job.max_retries ∧
      (dlqRow now job).timeout = job.timeout ∧
      (dlqRow now job).backoff_base = job.backoff_base ∧
      (dlqRow now job).priority = job.priority ∧
      (dlqRow now job).created_at = job.created_at ∧
      (dlqRow now job).waiting_time = job.waiting_time ∧
      (dlqRow now job).output = job.output ∧
      (dlqRow now job).execution_time = job.execution_time) ∧
    (∀ i now, (∀ job, get_job s i = some job → job.state ≠ JobState.dead) →
      retry_dlq_job s i now = (false, s)) := by
  constructor
  · intro i now job hf hdead
    have : retry_dlq_job s i now =
        (true, ⟨updRows (fun x => decide (x.id = i)) (dlqRow now) s.jobs⟩) := by
      unfold retry_dlq_job
      rw [hf]
      dsimp only
      rw [if_pos hdead]
    rw [this]
    exact ⟨rfl, get_job_upd_same s i (dlqRow now) (fun x => rfl) job hf,
      rfl, rfl, rfl, rfl, rfl, rfl, rfl, rfl, rfl, rfl, rfl, rfl, rfl, rfl,
      rfl, rfl, rfl⟩
  · intro i now hnd
    unfold retry_dlq_job
    cases hg : get_job s i with
    | none => rfl
    | some job =>
      dsimp only
      rw [if_neg (hnd job hg)]

/-- C7: enqueueing an id already present fails with `False` and leaves
the store byte-for-byte unchanged — the aging bump ran inside the same
transaction, which is rolled back, so no `waiting_time` changes. -/
theorem enqueue_duplicate_noop (s : Store) (i cmd : String)
    (mr tmo bb : Nat) (p : Int) (now : Nat) (x : Job)
    (hx : x ∈ s.jobs) (hid : x.id = i) :
    enqueue_job s i cmd mr tmo bb p now = (false, s) := by
  unfold enqueue_job
  rw [if_pos]
  exact List.any_eq_true.mpr ⟨x, hx, by simp [hid]⟩

/-- C6: a successful enqueue bumps `waiting_time` by exactly 1 on every
unlocked `pending`/`failed` row, leaves every other row (in particular
`processing`, `completed`, `dead` and locked rows) completely unchanged,
and appends the fresh row with `state = pending`, `attempts = 0`,
`waiting_time = 0`, no lock and no `next_retry_at`. -/
theorem enqueue_effects (s : Store) (i cmd : String) (mr tmo bb : Nat)
    (p : Int) (now : Nat) (h : ∀ x ∈ s.jobs, x.id ≠ i) :
    ∃ s2, enqueue_job s i cmd mr tmo bb p now = (true, s2) ∧
      s2.jobs.length = s.jobs.length + 1 ∧
      (∀ (n : Nat) (x : Job), s.jobs[n]? = some x →
        (((x.state = JobState.pending ∨ x.state = JobState.failed) ∧
            x.locked_by = none) →
          s2.jobs[n]? = some { x with waiting_time := x.waiting_time + 1 }) ∧
        (¬ ((x.state = JobState.pending ∨ x.state = JobState.failed) ∧
            x.locked_by = none) →
          s2.jobs[n]? = some x)) ∧
      s2.jobs[s.jobs.length]? = some (freshJob i cmd mr tmo bb p now) ∧
      (freshJob i cmd mr tmo bb p now).state = JobState.pending ∧
      (freshJob i cmd mr tmo bb p now).attempts = 0 ∧
      (freshJob i cmd mr tmo bb p now).waiting_time = 0 ∧
      (freshJob i cmd mr tmo bb p now).locked_by = none ∧
      (freshJob i cmd mr tmo bb p now).locked_at = none ∧
      (freshJob i cmd mr tmo bb p now).next_retry_at = none := by
  have hany : (s.jobs.any fun x => decide (x.id = i)) = false := by
    rw [List.any_eq_false]
    intro x hx
    simp [h x hx]
  have hlen : (bumpRows s.jobs).length = s.jobs.length := by
    unfold bumpRows
    exact updRows_length _ _ _
  refine ⟨⟨bumpRows s.jobs ++ [freshJob i cmd mr tmo bb p now]⟩, ?_, ?_, ?_, ?_,
    rfl, rfl, rfl, rfl, rfl, rfl⟩
  · unfold enqueue_job
    rw [hany]
    rfl
  · simp [hlen]
  · intro n x hx
    have hn : n < s.jobs.length := (List.getElem?_eq_some.mp hx).1
    have hidx : (⟨bumpRows s.jobs ++ [freshJob i cmd mr tmo bb p now]⟩ : Store).jobs[n]? =
        some (if (decide (x.state = JobState.pending) ||
            decide (x.state = JobState.failed)) && decide (x.locked_by = none)
          then { x with waiting_time := x.waiting_time + 1 } else x) := by
      show (bumpRows s.jobs ++ [freshJob i cmd mr tmo bb p now])[n]? = _
      rw [List.getElem?_append_left (by omega : n < (bumpRows s.jobs).length)]
      unfold bumpRows updRows
      rw [List.getElem?_map _ s.jobs n, hx]
      rfl
    constructor
    · intro hcond
      rw [hidx, if_pos]
      rcases hcond.1 with h1 | h1 <;> simp [h1, hcond.2]
    · intro hcond
      rw [hidx, if_neg]
      intro hb
      apply hcond
      have hb' := Bool.and_eq_true _ _ ▸ hb
      refine ⟨?_, of_decide_eq_true hb'.2⟩
      rcases Bool.or_eq_true _ _ ▸ hb'.1 with h1 | h1
      · exact Or.inl (of_decide_eq_true h1)
      · exact Or.inr (of_decide_eq_true h1)
  · show (bumpRows s.jobs ++ [freshJob i cmd mr tmo bb p now])[s.jobs.length]? = _
    rw [← hlen]
    exact List.getElem?_concat_length _ _

/-! ### The retry-budget invariant over call sequences -/

/-- Per-job retry-budget invariant. -/
def JobInv (j : Job) : Prop :=
  1 ≤ j.max_retries ∧ j.attempts ≤ j.max_retries ∧
    (j.state ≠ JobState.dead → j.attempts < j.max_retries)

/-- Store invariant: primary-key uniqueness plus the per-job budget. -/
def StoreInv (s : Store) : Prop :=
  UniqueIds s ∧ ∀ j ∈ s.jobs, JobInv j

/-- Benign calls: enqueues carry `max_retries ≥ 1`, and `complete`/`fail`
target only rows currently in `processing` (as the worker does). -/
def goodOp (s : Store) : Op → Bool
  | Op.enqueue _ _ mr _ _ _ _ => decide (1 ≤ mr)
  | Op.complete j _ _ _ =>
      s.jobs.all fun x => !(decide (x.id = j)) || decide (x.state = JobState.processing)
  | Op.fail j _ _ _ =>
      s.jobs.all fun x => !(decide (x.id = j)) || decide (x.state = JobState.processing)
  | _ => true

/-- A whole call sequence is benign from a given store. -/
def goodSeq (s : Store) : List Op → Bool
  | [] => true
  | op :: ops => goodOp s op && goodSeq (applyOp s op) ops

theorem bumpRows_map_id (l : List Job) :
    (bumpRows l).map Job.id = l.map Job.id := by
  unfold bumpRows
  exact updRows_map_id _
    (fun x => { x with waiting_time := x.waiting_time + 1 }) (fun x => rfl) l

theorem StoreInv_enqueue (s : Store) (i c : String) (mr tmo bb : Nat)
    (p : Int) (now : Nat) (hmr : 1 ≤ mr) (hs : StoreInv s) :
    StoreInv (enqueue_job s i c mr tmo bb p now).2 := by
  unfold enqueue_job
  by_cases hd : (s.jobs.any fun x => decide (x.id = i)) = true
  · rw [if_pos hd]
    exact hs
  · rw [if_neg hd]
    have hfresh : ∀ x ∈ s.jobs, x.id ≠ i := by
      intro x hx he
      exact hd (List.any_eq_true.mpr ⟨x, hx, by simp [he]⟩)
    constructor
    · show ((bumpRows s.jobs ++
        [freshJob i c mr tmo bb p now]).map Job.id).Nodup
      rw [List.map_append, bumpRows_map_id, List.nodup_append]
      refine ⟨hs.1, List.nodup_singleton _, ?_⟩
      intro a ha hb
      obtain ⟨x, hx, hxa⟩ := List.mem_map.mp ha
      have : a = i := by simpa using hb
      exact hfresh x hx (by rw [hxa, this])
    · intro j hj
      rcases List.mem_append.mp hj with hl | hr
      · obtain ⟨x, hx, hfx⟩ := List.mem_map.mp hl
        rw [← hfx]
        have hxinv := hs.2 x hx
        by_cases hp : ((decide (x.state = JobState.pending) ||
            decide (x.state = JobState.failed)) &&
            decide (x.locked_by = none)) = true
        · rw [if_pos hp]
          exact hxinv
        · rw [if_neg hp]
          exact hxinv
      · have : j = freshJob i c mr tmo bb p now := by simpa using hr
        rw [this]
        exact ⟨hmr, Nat.zero_le _, fun _ => hmr⟩

theorem StoreInv_acquire (s : Store) (w : String) (now : Nat)
    (hs : StoreInv s) : StoreInv (acquire_job s w now).2 := by
  cases hres : acquire_job s w now with
  | mk o s2 =>
    cases o with
    | none =>
      rw [acquire_none_frame s w now s2 hres]
      exact hs
    | some j =>
      obtain ⟨sel, hmem, helig, _, _, hs2⟩ :=
        acquire_some_spec s w now j s2 hs.1 hres
      rw [hs2]
      constructor
      · exact updRows_uniqueIds hs.1 _ _ (fun x => rfl)
      · intro y hy
        obtain ⟨x, hx, hfx⟩ := List.mem_map.mp hy
        rw [← hfx]
        by_cases hp : (decide (x.id = sel.id) && decide (x.locked_by = none)) = true
        · rw [if_pos hp]
          have hxid : x.id = sel.id :=
            of_decide_eq_true (Bool.and_eq_true _ _ ▸ hp).1
          have hxsel : x = sel := mem_id_unique s.jobs hs.1 hx hmem hxid
          have hxinv := hs.2 x hx
          refine ⟨hxinv.1, hxinv.2.1, fun _ => ?_⟩
          show x.attempts < x.max_retries
          apply hxinv.2.2
          have := (eligibleB_iff now sel).mp helig
          rw [hxsel]
          rcases this.1 with h1 | h1
          · rw [h1]; simp
          · rw [h1.1]; simp
        · rw [if_neg hp]
          exact hs.2 x hx

theorem StoreInv_complete (s : Store) (i out : String) (t : Option Int)
    (now : Nat)
    (hgood : (s.jobs.all fun x =>
      !(decide (x.id = i)) || decide (x.state = JobState.processing)) = true)
    (hs : StoreInv s) : StoreInv (complete_job s i out t now) := by
  unfold complete_job
  constructor
  · exact updRows_uniqueIds hs.1 _ _ (fun x => rfl)
  · intro y hy
    obtain ⟨x, hx, hfx⟩ := List.mem_map.mp hy
    rw [← hfx]
    by_cases hp : decide (x.id = i) = true
    · rw [if_pos hp]
      have hproc : x.state = JobState.processing := by
        have hall := List.all_eq_true.mp hgood x hx
        rcases Bool.or_eq_true _ _ ▸ hall with h1 | h1
        · exact absurd hp (by simpa using h1)
        · exact of_decide_eq_true h1
      have hxinv := hs.2 x hx
      refine ⟨hxinv.1, ?_, fun _ => ?_⟩
      · show x.attempts ≤ x.max_retries
        exact hxinv.2.1
      · show x.attempts < x.max_retries
        exact hxinv.2.2 (by rw [hproc]; simp)
    · rw [if_neg hp]
      exact hs.2 x hx

theorem StoreInv_fail (s : Store) (i msg : String) (t : Option Int)
    (now : Nat)
    (hgood : (s.jobs.all fun x =>
      !(decide (x.id = i)) || decide (x.state = JobState.processing)) = true)
    (hs : StoreInv s) : StoreInv (fail_job s i msg t now) := by
  unfold fail_job
  cases hg : get_job s i with
  | none => exact hs
  | some job =>
    dsimp only
    have hjmem := get_job_mem hg
    have hjid : job.id = i := get_job_some_id hg
    have hjinv := hs.2 job hjmem
    have hproc : job.state = JobState.processing := by
      have hall := List.all_eq_true.mp hgood job hjmem
      rcases Bool.or_eq_true _ _ ▸ hall with h1 | h1
      · exact absurd (by simpa using hjid : decide (job.id = i) = true)
          (by simpa using h1)
      · exact of_decide_eq_true h1
    have hlt : job.attempts < job.max_retries :=
      hjinv.2.2 (by rw [hproc]; simp)
    have harg : ∀ x ∈ s.jobs, decide (x.id = i) = true → x = job := by
      intro x hx hp
      exact mem_id_unique s.jobs hs.1 hx hjmem
        (by rw [of_decide_eq_true hp, hjid])
    by_cases hc : job.max_retries ≤ job.attempts + 1
    · rw [if_pos hc]
      constructor
      · exact updRows_uniqueIds hs.1 _ _ (fun x => rfl)
      · intro y hy
        obtain ⟨x, hx, hfx⟩ := List.mem_map.mp hy
        rw [← hfx]
        by_cases hp : decide (x.id = i) = true
        · rw [if_pos hp, harg x hx hp]
          refine ⟨hjinv.1, ?_, fun hne => absurd rfl hne⟩
          show job.attempts + 1 ≤ job.max_retries
          omega
        · rw [if_neg hp]
          exact hs.2 x hx
    · rw [if_neg hc]
      constructor
      · exact updRows_uniqueIds hs.1 _ _ (fun x => rfl)
      · intro y hy
        obtain ⟨x, hx, hfx⟩ := List.mem_map.mp hy
        rw [← hfx]
        by_cases hp : decide (x.id = i) = true
        · rw [if_pos hp, harg x hx hp]
          refine ⟨hjinv.1, ?_, fun _ => ?_⟩
          · show job.attempts + 1 ≤ job.max_retries
            omega
          · show job.attempts + 1 < job.max_retries
            omega
        · rw [if_neg hp]
          exact hs.2 x hx

theorem StoreInv_dlq (s : Store) (i : String) (now : Nat) (hs : StoreInv s) :
    StoreInv (retry_dlq_job s i now).2 := by
  unfold retry_dlq_job
  cases hg : get_job s i with
  | none => exact hs
  | some job =>
    dsimp only
    by_cases hd : job.state = JobState.dead
    · rw [if_pos hd]
      constructor
      · exact updRows_uniqueIds hs.1 _ _ (fun x => rfl)
      · intro y hy
        obtain ⟨x, hx, hfx⟩ := List.mem_map.mp hy
        rw [← hfx]
        by_cases hp : decide (x.id = i) = true
        · rw [if_pos hp]
          have hxinv := hs.2 x hx
          exact ⟨hxinv.1, Nat.zero_le _, fun _ => hxinv.1⟩
        · rw [if_neg hp]
          exact hs.2 x hx
    · rw [if_neg hd]
      exact hs

theorem StoreInv_delete (s : Store) (i : String) (hs : StoreInv s) :
    StoreInv (delete_job s i).2 := by
  unfold delete_job
  constructor
  · have hsub : ((s.jobs.filter fun x => !(decide (x.id = i))).map Job.id).Sublist
        (s.jobs.map Job.id) :=
      List.Sublist.map Job.id (List.filter_sublist s.jobs)
    exact List.Nodup.sublist hsub hs.1
  · intro j hj
    exact hs.2 j (List.mem_of_mem_filter hj)

theorem StoreInv_step (s : Store) (op : Op) (hg : goodOp s op = true)
    (hs : StoreInv s) : StoreInv (applyOp s op) := by
  cases op with
  | enqueue i c mr tmo bb p now =>
    exact StoreInv_enqueue s i c mr tmo bb p now (of_decide_eq_true hg) hs
  | acquire w now => exact StoreInv_acquire s w now hs
  | complete j o t now => exact StoreInv_complete s j o t now hg hs
  | fail j m t now => exact StoreInv_fail s j m t now hg hs
  | dlqRetry j now => exact StoreInv_dlq s j now hs
  | delete j => exact StoreInv_delete s j hs
  | clear =>
    refine ⟨List.nodup_nil, fun j hj => ?_⟩
    exact absurd (show j ∈ ([] : List Job) from hj) (List.not_mem_nil j)

theorem StoreInv_run (s : Store) (ops : List Op) (hg : goodSeq s ops = true)
    (hs : StoreInv s) : StoreInv (runOps s ops) := by
  induction ops generalizing s with
  | nil => exact hs
  | cons op ops ih =>
    unfold goodSeq at hg
    rw [Bool.and_eq_true] at hg
    exact ih (applyOp s op) hg.2 (StoreInv_step s op hg.1 hs)

/-- C8 (amended): along any benign call sequence from the empty store —
every enqueue carries `max_retries ≥ 1` and `complete`/`fail` are only
invoked on rows currently `processing`, as the worker loop does — every
job keeps `attempts ≤ max_retries`; and unconditionally, a `fail` that
lifts `attempts` to at least `max_retries` makes that job `dead`. -/
theorem retry_budget_invariant :
    (∀ ops, goodSeq store0 ops = true →
      ∀ j ∈ (runOps store0 ops).jobs, j.attempts ≤ j.max_retries) ∧
    (∀ s i msg t now job, get_job s i = some job →
      job.max_retries ≤ job.attempts + 1 →
      ∀ j ∈ (fail_job s i msg t now).jobs, j.id = i →
        j.state = JobState.dead) := by
  constructor
  · intro ops hg j hj
    have h0 : StoreInv store0 :=
      ⟨List.nodup_nil, fun x hx =>
        absurd (show x ∈ ([] : List Job) from hx) (List.not_mem_nil x)⟩
    exact ((StoreInv_run store0 ops hg h0).2 j hj).2.1
  · intro s i msg t now job hgj hge j hj hid
    unfold fail_job at hj
    rw [hgj] at hj
    dsimp only at hj
    rw [if_pos hge] at hj
    obtain ⟨x, hx, hfx⟩ := List.mem_map.mp hj
    by_cases hp : decide (x.id = i) = true
    · rw [if_pos hp] at hfx
      rw [← hfx]
      rfl
    · rw [if_neg hp] at hfx
      rw [← hfx] at hid
      exact absurd hid (by simpa using hp)

/-! ### Concrete stores used to exercise the theorems -/

/-- A pending job of priority 5. -/
def demoPending : Job := freshJob "a" "echo hi" 3 20 2 5 0

/-- A pending job of priority 1. -/
def demoLow : Job := freshJob "b" "echo lo" 3 20 2 1 0

/-- A two-job store with distinct ids. -/
def demoStore : Store := ⟨[demoPending, demoLow]⟩

/-- A `dead` row carrying a non-trivial `waiting_time`, `output` and
`execution_time`. -/
def deadJob : Job :=
  { id := "d"
    command := "false"
    state := JobState.dead
    attempts := 2
    max_retries := 2
    timeout := 20
    backoff_base := 2
    priority := 5
    waiting_time := 3
    next_retry_at := none
    locked_by := none
    locked_at := none
    output := some "out-1"
    error_message := some "Exit code 1"
    execution_time := some 1
    created_at := 0
    updated_at := 4 }

def deadStore : Store := ⟨[deadJob]⟩

/-- A `processing` row about to record its first failure. -/
def procJob : Job :=
  { id := "f"
    command := "false"
    state := JobState.processing
    attempts := 0
    max_retries := 3
    timeout := 20
    backoff_base := 2
    priority := 5
    waiting_time := 0
    next_retry_at := none
    locked_by := some "w1"
    locked_at := some 3
    output := none
    error_message := none
    execution_time := none
    created_at := 0
    updated_at := 3 }

def procStore : Store := ⟨[procJob]⟩

/-- A benign call sequence: enqueue with budget 1, acquire, one failure. -/
def demoOps : List Op :=
  [Op.enqueue "a" "false" 1 20 2 5 0,
   Op.acquire "w1" 1,
   Op.fail "a" "Exit code 1" none 2]

/-- Two failures in a row on the same job of budget 1: the second `fail`
hits a row already `dead`. -/
def overFailOps : List Op :=
  [Op.enqueue "a" "false" 1 20 2 5 0,
   Op.fail "a" "Exit code 1" none 1,
   Op.fail "a" "Exit code 1" none 2]

/-! ### Witnesses and counterexamples on the concrete stores -/

/-- Witness for C1: acquiring from the two-job store locks the
priority-5 job and a second acquire can never return it again. -/
theorem acquire_locks_and_excludes_witness :
    UniqueIds demoStore ∧
    ((∃ x ∈ demoStore.jobs, x.id = (acquireRow "w1" 10 demoPending).id ∧
        x.locked_by = none) ∧
      (acquireRow "w1" 10 demoPending).state = JobState.processing ∧
      (acquireRow "w1" 10 demoPending).locked_by = some "w1" ∧
      (acquireRow "w1" 10 demoPending).locked_at = some 10 ∧
      (acquireRow "w1" 10 demoPending).updated_at = 10 ∧
      ∀ w2 now2 j2 s2,
        acquire_job ⟨[acquireRow "w1" 10 demoPending, demoLow]⟩ w2 now2 =
          (some j2, s2) → j2.id ≠ (acquireRow "w1" 10 demoPending).id) :=
  ⟨by decide,
    acquire_locks_and_excludes demoStore "w1" 10
      (acquireRow "w1" 10 demoPending)
      ⟨[acquireRow "w1" 10 demoPending, demoLow]⟩ (by decide) (by decide)⟩

/-- Witness for C2: the job returned from the two-job store is eligible
and maximises the ranking key. -/
theorem acquire_ordering_witness :
    UniqueIds demoStore ∧
    (∃ sel ∈ demoStore.jobs, sel.id = (acquireRow "w1" 10 demoPending).id ∧
      eligibleB 10 sel = true ∧
      (sel.state = JobState.pending ∨ sel.state = JobState.failed) ∧
      (∀ y ∈ demoStore.jobs, eligibleB 10 y = true →
        effPrio y ≤ effPrio sel ∧
        (effPrio y = effPrio sel → sel.created_at ≤ y.created_at)) ∧
      (⟨[acquireRow "w1" 10 demoPending, demoLow]⟩ : Store).jobs.length =
        demoStore.jobs.length ∧
      (∀ y ∈ demoStore.jobs,
        y.state = JobState.processing ∨ y.state = JobState.completed ∨
          y.state = JobState.dead →
        y ∈ (⟨[acquireRow "w1" 10 demoPending, demoLow]⟩ : Store).jobs)) :=
  ⟨by decide,
    (acquire_ordering demoStore "w1" 10 (by decide)).1
      (acquireRow "w1" 10 demoPending)
      ⟨[acquireRow "w1" 10 demoPending, demoLow]⟩ (by decide)⟩

/-- Witness for C3: failing the `processing` job with budget 3 takes the
retry branch. -/
theorem fail_transitions_witness :
    get_job procStore "f" = some procJob ∧
    ∃ job2, get_job (fail_job procStore "f" "Exit code 1" (some 1) 7) "f" =
        some job2 ∧
      job2.attempts = procJob.attempts + 1 ∧
      job2.max_retries = procJob.max_retries ∧
      (procJob.max_retries ≤ procJob.attempts + 1 →
        job2.state = JobState.dead ∧ job2.error_message = some "Exit code 1" ∧
        job2.execution_time = some 1 ∧ job2.next_retry_at = none ∧
        job2.locked_by = none ∧ job2.locked_at = none) ∧
      (procJob.attempts + 1 < procJob.max_retries →
        job2.state = JobState.failed ∧
        job2.next_retry_at =
          some (7 + procJob.backoff_base ^ (procJob.attempts + 1)) ∧
        job2.error_message = some "Exit code 1" ∧
        job2.locked_by = none ∧ job2.locked_at = none) ∧
      (job2.state = JobState.dead → procJob.max_retries ≤ job2.attempts) ∧
      (procJob.attempts < procJob.max_retries → job2.state = JobState.dead →
        job2.attempts = job2.max_retries) :=
  ⟨by decide,
    fail_transitions procStore "f" "Exit code 1" (some 1) 7 procJob (by decide)⟩

/-- Witness for C4: the first failure schedules the retry exactly
`backoff_base ^ 1` seconds after `updated_at`. -/
theorem fail_backoff_witness :
    procJob.attempts + 1 < procJob.max_retries ∧
    ∃ job2, get_job (fail_job procStore "f" "Exit code 1" (some 1) 7) "f" =
        some job2 ∧
      1 ≤ job2.attempts ∧ job2.attempts < job2.max_retries ∧
      job2.attempts = procJob.attempts + 1 ∧
      job2.updated_at = 7 ∧
      job2.next_retry_at =
        some (job2.updated_at + procJob.backoff_base ^ job2.attempts) :=
  ⟨by decide,
    fail_backoff procStore "f" "Exit code 1" (some 1) 7 procJob
      (by decide) (by decide)⟩

/-- Witness for C5 (amended): retrying the concrete dead job resets the
listed fields and keeps `waiting_time`, `output` and `execution_time`. -/
theorem dlq_retry_resets_witness :
    get_job deadStore "d" = some deadJob ∧
    deadJob.state = JobState.dead ∧
    ((retry_dlq_job deadStore "d" 9).1 = true ∧
      get_job (retry_dlq_job deadStore "d" 9).2 "d" = some (dlqRow 9 deadJob) ∧
      (dlqRow 9 deadJob).state = JobState.pending ∧
      (dlqRow 9 deadJob).attempts = 0 ∧
      (dlqRow 9 deadJob).error_message = none ∧
      (dlqRow 9 deadJob).next_retry_at = none ∧
      (dlqRow 9 deadJob).locked_by = none ∧
      (dlqRow 9 deadJob).locked_at = none ∧
      (dlqRow 9 deadJob).updated_at = 9 ∧
      (dlqRow 9 deadJob).id = deadJob.id ∧
      (dlqRow 9 deadJob).command = deadJob.command ∧
      (dlqRow 9 deadJob).max_retries = deadJob.max_retries ∧
      (dlqRow 9 deadJob).timeout = deadJob.timeout ∧
      (dlqRow 9 deadJob).backoff_base = deadJob.backoff_base ∧
      (dlqRow 9 deadJob).priority = deadJob.priority ∧
      (dlqRow 9 deadJob).created_at = deadJob.created_at ∧
      (dlqRow 9 deadJob).waiting_time = deadJob.waiting_time ∧
      (dlqRow 9 deadJob).output = deadJob.output ∧
      (dlqRow 9 deadJob).execution_time = deadJob.execution_time) :=
  ⟨by decide, by decide,
    (dlq_retry_resets deadStore).1 "d" 9 deadJob (by decide) (by decide)⟩

/-- C5 counterexample: after a successful DLQ retry the row keeps
`waiting_time = 3` and `output = some "out-1"`, while the corresponding
freshly enqueued job starts with `waiting_time = 0` and no output, so
the result is distinguishable from a fresh job beyond `id` and
`created_at`. -/
theorem dlq_retry_not_fresh :
    (retry_dlq_job deadStore "d" 9).1 = true ∧
    (get_job (retry_dlq_job deadStore "d" 9).2 "d").map Job.waiting_time =
      some 3 ∧
    (get_job (retry_dlq_job deadStore "d" 9).2 "d").map Job.output =
      some (some "out-1") ∧
    (freshJob "d" "false" 2 20 2 5 9).waiting_time = 0 ∧
    (freshJob "d" "false" 2 20 2 5 9).output = none :=
  ⟨by decide, by decide, by decide, rfl, rfl⟩

/-- Witness for C6: enqueueing a third job bumps both waiting pending
rows and appends the fresh row. -/
theorem enqueue_effects_witness :
    (∀ x ∈ demoStore.jobs, x.id ≠ "c") ∧
    ∃ s2, enqueue_job demoStore "c" "echo c" 3 20 2 5 7 = (true, s2) ∧
      s2.jobs.length = demoStore.jobs.length + 1 ∧
      (∀ (n : Nat) (x : Job), demoStore.jobs[n]? = some x →
        (((x.state = JobState.pending ∨ x.state = JobState.failed) ∧
            x.locked_by = none) →
          s2.jobs[n]? = some { x with waiting_time := x.waiting_time + 1 }) ∧
        (¬ ((x.state = JobState.pending ∨ x.state = JobState.failed) ∧
            x.locked_by = none) →
          s2.jobs[n]? = some x)) ∧
      s2.jobs[demoStore.jobs.length]? = some (freshJob "c" "echo c" 3 20 2 5 7) ∧
      (freshJob "c" "echo c" 3 20 2 5 7).state = JobState.pending ∧
      (freshJob "c" "echo c" 3 20 2 5 7).attempts = 0 ∧
      (freshJob "c" "echo c" 3 20 2 5 7).waiting_time = 0 ∧
      (freshJob "c" "echo c" 3 20 2 5 7).locked_by = none ∧
      (freshJob "c" "echo c" 3 20 2 5 7).locked_at = none ∧
      (freshJob "c" "echo c" 3 20 2 5 7).next_retry_at = none :=
  ⟨by decide, enqueue_effects demoStore "c" "echo c" 3 20 2 5 7 (by decide)⟩

/-- Witness for C7: re-enqueueing id `a` fails and leaves the store
unchanged. -/
theorem enqueue_duplicate_noop_witness :
    demoPending ∈ demoStore.jobs ∧ demoPending.id = "a" ∧
    enqueue_job demoStore "a" "echo again" 3 20 2 5 7 = (false, demoStore) :=
  ⟨by decide, by decide,
    enqueue_duplicate_noop demoStore "a" "echo again" 3 20 2 5 7 demoPending
      (by decide) (by decide)⟩

/-- Witness for C8 (amended): the benign enqueue-acquire-fail sequence
keeps `attempts ≤ max_retries`. -/
theorem retry_budget_invariant_witness :
    goodSeq store0 demoOps = true ∧
    ∀ j ∈ (runOps store0 demoOps).jobs, j.attempts ≤ j.max_retries :=
  ⟨by decide, retry_budget_invariant.1 demoOps (by decide)⟩

/-- C8 counterexample: from the empty store, enqueue with budget 1 and
then fail twice — the second `fail` hits the already-`dead` row and
leaves `attempts = 2 > max_retries = 1`, refuting the unconditional
invariant over arbitrary call sequences. -/
theorem retry_budget_counterexample :
    ¬ ∀ j ∈ (runOps store0 overFailOps).jobs, j.attempts ≤ j.max_retries := by
  decide

/-- Witness for C10: completing the `dead` job (never acquired by the
caller) still rewrites it to `completed` and clears the lock fields. -/
theorem complete_fail_unconditional_witness :
    get_job deadStore "d" = some deadJob ∧
    ∃ job2, get_job (complete_job deadStore "d" "out-2" (some 2) 9) "d" =
        some job2 ∧
      job2.state = JobState.completed ∧ job2.output = some "out-2" ∧
      job2.execution_time = some 2 ∧ job2.locked_by = none ∧
      job2.locked_at = none ∧ job2.updated_at = 9 :=
  ⟨by decide,
    complete_fail_unconditional.1 deadStore "d" "out-2" (some 2) 9 deadJob
      (by decide)⟩

end QueueCTL
